import Mathlib

/-
Shallow embedding of src/big-A/selectStockDividendData.py.

Modelling conventions:
- Python floats are modelled as exact rationals (ℚ); Python round(x, 2)
  (round half to even) is modelled by roundHalfEven on rationals.
- A pandas dividend row is a DividendRecord; its 报告时间 (report date) is a
  natural number in YYYYMMDD form, so date comparison is ℕ comparison and the
  year is the quotient by 10000.
- ak.stock_dividend_cninfo is an external call that may raise; it is modelled
  as a function returning Except PyErr (List DividendRecord), where PyErr
  distinguishes KeyError from any other exception, matching the two except
  clauses of getStockDividendData.
- price_map (dict built from the spot dataframe) is an association list; the
  dict .get with default None is List.lookup.
- pandas sort_values with the default kind (quicksort) guarantees only the
  ordering of the sort key, not stability; in addition pandas produces a
  descending order by reversing an ascending argsort, which reverses ties.
  The final sort of getHighDividend is therefore modelled as a relation
  SortBehavior: any permutation of the collected results that is descending
  in the 股息率(%) column is an admissible output.
- the for-loop of getHighDividend is screenGo: it threads the dataframe index
  i (0-based after reset_index), accumulates the results list, the list of
  indices after which the pacing time.sleep(1) runs, and the list of error
  records produced by the except handler.  The except handler in
  getHighDividend is literally `pass`, so that last component is never
  extended.  The `continue` statements inside the try block skip the pacing
  check at the bottom of the loop body; the Bool returned by stepStock records
  whether control reaches that check.
-/

namespace SelectStockDividendData

/-- One row of the dividend-history dataframe returned by
ak.stock_dividend_cninfo, restricted to the columns the program reads. -/
structure DividendRecord where
  divType : String      -- 分红类型
  ratio : ℚ             -- 派息比例 (cash paid per 10 shares)
  reportDate : ℕ        -- 报告时间, encoded YYYYMMDD
  recordDate : String   -- 股权登记日
  exDate : String       -- 除权日
deriving Repr, DecidableEq

/-- Year of a YYYYMMDD-encoded date, as latest_div[报告时间].year. -/
def yearOf (d : ℕ) : ℤ := ((d / 10000 : ℕ) : ℤ)

/-- One row appended to `results` in getHighDividend. -/
structure ScreeningResult where
  code : String             -- 代码
  name : String             -- 名称
  latestPrice : ℚ           -- 最新价 (rounded)
  dividendPerShare : ℚ      -- 每股分红(元) (rounded)
  distributionRatio : ℚ     -- 派息比例(10派X) (not rounded)
  yieldPercent : ℚ          -- 股息率(%) (rounded)
  dividendYear : ℤ          -- 分红年度
  recordDate : String       -- 股权登记日
  exDate : String           -- 除权日
deriving Repr, DecidableEq

/-- A Python exception raised by the per-stock fetch: KeyError (matched by the
first except clause of getStockDividendData) or anything else. -/
inductive PyErr where
  | keyError (msg : String)
  | otherErr (msg : String)
deriving Repr, DecidableEq

/-- Round half to even, as Python round does on an exact value. -/
def roundHalfEven (q : ℚ) : ℤ :=
  let n := ⌊q⌋
  let f := q - (n : ℚ)
  if f < 1/2 then n
  else if 1/2 < f then n + 1
  else if n % 2 = 0 then n else n + 1

/-- Python round(x, 2) on an exact value. -/
def round2 (q : ℚ) : ℚ := ((roundHalfEven (q * 100) : ℤ) : ℚ) / 100

/-- Bool test that a list starts with the given pattern. -/
def begWith : List Char → List Char → Bool
  | _, [] => true
  | [], _ :: _ => false
  | a :: s, b :: p => a == b && begWith s p

/-- Bool test that the pattern occurs as a contiguous run of the list. -/
def hasSub (p : List Char) : List Char → Bool
  | [] => p.isEmpty
  | c :: t => begWith (c :: t) p || hasSub p t

/-- The filter div_df[分红类型].str.contains(現金...) of getHighDividend:
the 分红类型 string contains 现金 as a substring. -/
def isCashRecord (r : DividendRecord) : Bool :=
  hasSub ("现金".toList) r.divType.toList

/-- div_df.sort_values(报告时间, ascending=False).iloc[0]: a row whose
报告时间 is maximal.  The fold keeps the first-seen row among ties, one
admissible outcome of the unstable sort. -/
def selectLatest (r : DividendRecord) (rs : List DividendRecord) : DividendRecord :=
  rs.foldl (fun best x => if best.reportDate < x.reportDate then x else best) r

/-- The regex of getAllStockCodes: matches ^(60|68|00|30)\d\x7b4\x7d$ against a
code string. -/
def matchShSz (s : String) : Bool :=
  match s.toList with
  | a :: b :: rest =>
    ((a == '6' && b == '0') || (a == '6' && b == '8') ||
     (a == '0' && b == '0') || (a == '3' && b == '0'))
    && rest.length == 4 && rest.all Char.isDigit
  | _ => false

/-- getAllStockCodes: the raw (code, name) list from the provider, filtered to
Shanghai/Shenzhen codes when containBJ is false. -/
def getAllStockCodes (containBJ : Bool) (raw : List (String × String)) :
    List (String × String) :=
  if containBJ then raw else raw.filter (fun x => matchShSz x.1)

/-- The external inputs of one getHighDividend run: the current year
(datetime.now().year), the price map, and the dividend fetch. -/
structure Cfg where
  currentYear : ℤ
  priceMap : List (String × ℚ)
  fetch : String → Except PyErr (List DividendRecord)

/-- The body of the getHighDividend loop for one (symbol, name) row.
Returns the optional appended result and whether control reaches the pacing
check at the bottom of the loop body (false exactly on the `continue` paths;
the except handler is `pass`, which falls through to the check). -/
def stepStock (cfg : Cfg) (symbol name : String) : Option ScreeningResult × Bool :=
  match cfg.fetch symbol with
  | .error _ => (none, true)
  | .ok records =>
    if records.isEmpty then (none, false)
    else
      match records.filter isCashRecord with
      | [] => (none, false)
      | c :: cs =>
        let latest := selectLatest c cs
        let reportYear := yearOf latest.reportDate
        if reportYear < cfg.currentYear - 2 then (none, false)
        else
          match List.lookup symbol cfg.priceMap with
          | none => (none, false)
          | some price =>
            if price ≤ 0 then (none, false)
            else
              let dps := latest.ratio / 10
              let dy := dps / price * 100
              if 3 ≤ dy then
                (some { code := symbol
                        name := name
                        latestPrice := round2 price
                        dividendPerShare := round2 dps
                        distributionRatio := latest.ratio
                        yieldPercent := round2 dy
                        dividendYear := reportYear
                        recordDate := latest.recordDate
                        exDate := latest.exDate }, true)
              else (none, true)

/-- One error row of the 获取失败 / 无分红 sheets of getStockDividendData. -/
structure ErrorRecord where
  code : String   -- 股票代码
  name : String   -- 股票名称
  note : String   -- 备注
deriving Repr, DecidableEq

/-- Accumulated observable state of the getHighDividend loop: the results
list, the 0-based indices after which time.sleep(1) ran, and the error records
produced by the except handler (the handler is `pass`, so none ever are). -/
structure ScreenState where
  results : List ScreeningResult
  pauses : List ℕ
  errRecords : List ErrorRecord
deriving Repr, DecidableEq

/-- The getHighDividend loop from dataframe index i onward. -/
def screenGo (cfg : Cfg) : ℕ → List (String × String) → ScreenState
  | _, [] => ⟨[], [], []⟩
  | i, (s, n) :: rest =>
    let step := stepStock cfg s n
    let next := screenGo cfg (i + 1) rest
    { results := match step.1 with
        | some r => r :: next.results
        | none => next.results
      pauses := if i % 50 == 0 && step.2 then i :: next.pauses else next.pauses
      errRecords := next.errRecords }

/-- The results list collected by getHighDividend, in encounter order,
before the final sort. -/
def screenResults (cfg : Cfg) (idents : List (String × String)) : List ScreeningResult :=
  (screenGo cfg 0 idents).results

/-- The 0-based indices after which the pacing time.sleep(1) ran. -/
def screenPauses (cfg : Cfg) (idents : List (String × String)) : List ℕ :=
  (screenGo cfg 0 idents).pauses

/-- The error records produced by the except handler of getHighDividend. -/
def screenErrs (cfg : Cfg) (idents : List (String × String)) : List ErrorRecord :=
  (screenGo cfg 0 idents).errRecords

/-- Descending order in the 股息率(%) column between adjacent rows. -/
def sortedDescBy (l : List ScreeningResult) : Prop :=
  l.Chain' (fun a b => b.yieldPercent ≤ a.yieldPercent)

/-- Admissible outputs of result_df.sort_values(股息率, ascending=False) with
the default quicksort kind: any permutation of the input that is descending in
the sort key.  Stability is not part of the pandas contract for this kind, and
pandas realises descending order by reversing an ascending argsort. -/
def SortBehavior (inp out : List ScreeningResult) : Prop :=
  inp.Perm out ∧ sortedDescBy out

/-- Rows with equal yield keep their encounter order: for every key value, the
subsequence of the output at that key equals that of the input. -/
def tiesInEncounterOrder (inp out : List ScreeningResult) : Prop :=
  ∀ y : ℚ, out.filter (fun r => decide (r.yieldPercent = y))
    = inp.filter (fun r => decide (r.yieldPercent = y))

/-- Per-stock outcome of the getStockDividendData loop body. -/
inductive CollectOutcome where
  | dividendData (rows : List DividendRecord)   -- appended to all_dividend_data
  | noDividend                                  -- appended to no_dividend_stocks
  | malformed (msg : String)                    -- except KeyError branch
  | fetchFail (msg : String)                    -- except Exception branch
deriving Repr, DecidableEq

/-- The try/except of the getStockDividendData loop body for one stock. -/
def collectStep (fetch : String → Except PyErr (List DividendRecord))
    (s : String) : CollectOutcome :=
  match fetch s with
  | .error (.keyError m) => .malformed m
  | .error (.otherErr m) => .fetchFail m
  | .ok df => if df.isEmpty then .noDividend else .dividendData df

/-- The getStockDividendData loop: accumulates (in encounter order) the
per-stock dividend data, the 无分红 rows, and the 获取失败 error rows with
their 备注 notes distinguishing the two except clauses. -/
def collectRun (fetch : String → Except PyErr (List DividendRecord)) :
    List (String × String) →
    List (String × String × List DividendRecord) × List ErrorRecord × List ErrorRecord
  | [] => ([], [], [])
  | (s, n) :: rest =>
    let acc := collectRun fetch rest
    match collectStep fetch s with
    | .dividendData rows => ((s, n, rows) :: acc.1, acc.2.1, acc.2.2)
    | .noDividend => (acc.1, ⟨s, n, "无分红记录"⟩ :: acc.2.1, acc.2.2)
    | .malformed m => (acc.1, acc.2.1, ⟨s, n, "数据格式错误: " ++ m⟩ :: acc.2.2)
    | .fetchFail m => (acc.1, acc.2.1, ⟨s, n, "获取失败: " ++ m⟩ :: acc.2.2)

/-- getStockDividendData iterates over getAllStockCodes() with containBJ
defaulted to true (no filtering). -/
def getStockDividendData (fetch : String → Except PyErr (List DividendRecord))
    (raw : List (String × String)) :
    List (String × String × List DividendRecord) × List ErrorRecord × List ErrorRecord :=
  collectRun fetch (getAllStockCodes true raw)

-- Claims as stated, for the refuted ones -----------------------------------

/-- The spec sentence behind C2: every admissible output of the final sort
keeps equal-yield rows in encounter order. -/
def claimC2 : Prop :=
  ∀ cfg idents out, SortBehavior (screenResults cfg idents) out →
    tiesInEncounterOrder (screenResults cfg idents) out

/-- The spec sentence behind C7: in both passes, a stock whose fetch raises
is recorded in an errors collection. -/
def claimC7 : Prop :=
  (∀ (fetch : String → Except PyErr (List DividendRecord)) idents s n
      (e : PyErr), (s, n) ∈ idents → fetch s = Except.error e →
    ∃ er ∈ (collectRun fetch idents).2.2, er.code = s) ∧
  (∀ (cfg : Cfg) idents s n (e : PyErr), (s, n) ∈ idents →
      cfg.fetch s = Except.error e →
    ∃ er ∈ screenErrs cfg idents, er.code = s)

/-- The spec sentence behind C9: the pacing pause runs exactly once after
every 50 processed identifiers, i.e. after the 50th, 100th, ... identifier. -/
def claimC9 : Prop :=
  ∀ cfg idents, screenPauses cfg idents =
    (List.range idents.length).filter (fun i => (i + 1) % 50 == 0)

-- Concrete fixtures for witnesses and counterexamples ----------------------

/-- A cash dividend row: 10 shares pay 5. -/
def recA : DividendRecord := ⟨"现金分红", 5, 20240630, "2024-07-01", "2024-07-02"⟩

/-- An older cash dividend row of the same stock as recB. -/
def recOld : DividendRecord := ⟨"现金分红", 40, 20230501, "2023-05-10", "2023-05-11"⟩

/-- The most recent cash dividend row of the second fixture stock. -/
def recB : DividendRecord := ⟨"现金分红", 10, 20240630, "2024-07-10", "2024-07-11"⟩

/-- A non-cash distribution row (stock dividend, no 现金 in its type). -/
def recN : DividendRecord := ⟨"送股", 5, 20240630, "2024-07-01", "2024-07-02"⟩

/-- A concrete dividend fetch covering the fixture stocks; every other code
raises a provider error. -/
def wFetch : String → Except PyErr (List DividendRecord) := fun s =>
  if s == "600000" then .ok [recA]
  else if s == "600001" then .ok [recOld, recB]
  else if s == "600003" then .error (.keyError "派息比例")
  else if s == "000001" then .ok []
  else if s == "300001" then .ok [recN]
  else .error (.otherErr "network")

/-- A concrete run configuration: year 2025 and a five-entry price map. -/
def wCfg : Cfg :=
  ⟨2025, [("600000", 10), ("600001", 20), ("000001", 5), ("300001", 5), ("600006", 0)], wFetch⟩

/-- The ScreeningResult the run emits for fixture stock 600000:
ratio 5 and price 10 give per-share dividend 1/2 and yield 5%. -/
def r0 : ScreeningResult :=
  ⟨"600000", "甲", 10, 1/2, 5, 5, 2024, "2024-07-01", "2024-07-02"⟩

/-- The ScreeningResult the run emits for fixture stock 600001:
ratio 10 and price 20 give per-share dividend 1 and the same 5% yield. -/
def r1 : ScreeningResult :=
  ⟨"600001", "乙", 20, 1, 10, 5, 2024, "2024-07-10", "2024-07-11"⟩

-- Helper lemmas ------------------------------------------------------------

theorem selectLatest_mem (c : DividendRecord) (cs : List DividendRecord) :
    selectLatest c cs ∈ c :: cs := by
  unfold selectLatest
  induction cs generalizing c with
  | nil => simp
  | cons d t ih =>
    simp only [List.foldl_cons]
    rcases List.mem_cons.mp (ih (if c.reportDate < d.reportDate then d else c)) with h | h
    · rw [h]
      by_cases hlt : c.reportDate < d.reportDate
      · rw [if_pos hlt]
        exact List.mem_cons_of_mem c (List.mem_cons_self d t)
      · rw [if_neg hlt]
        exact List.mem_cons_self c (d :: t)
    · exact List.mem_cons_of_mem c (List.mem_cons_of_mem d h)

theorem selectLatest_ge (c : DividendRecord) (cs : List DividendRecord) :
    ∀ x ∈ c :: cs, x.reportDate ≤ (selectLatest c cs).reportDate := by
  unfold selectLatest
  induction cs generalizing c with
  | nil => simp
  | cons d t ih =>
    intro x hx
    simp only [List.foldl_cons]
    have base : ∀ y : DividendRecord, y.reportDate ≤
        (List.foldl (fun best x => if best.reportDate < x.reportDate then x else best) y t).reportDate :=
      fun y => ih y y (List.mem_cons_self y t)
    rcases List.mem_cons.mp hx with rfl | hx2
    · by_cases hlt : x.reportDate < d.reportDate
      · rw [if_pos hlt]
        exact le_trans (le_of_lt hlt) (base d)
      · rw [if_neg hlt]
        exact base x
    · rcases List.mem_cons.mp hx2 with rfl | hx3
      · by_cases hlt : c.reportDate < x.reportDate
        · rw [if_pos hlt]
          exact base x
        · rw [if_neg hlt]
          exact le_trans (le_of_not_lt hlt) (base c)
      · exact ih (if c.reportDate < d.reportDate then d else c) x (List.mem_cons_of_mem _ hx3)

theorem stepStock_some {cfg : Cfg} {s n : String} {r : ScreeningResult}
    (h : (stepStock cfg s n).1 = some r) :
    ∃ recs c cs price,
      cfg.fetch s = Except.ok recs ∧
      recs.filter isCashRecord = c :: cs ∧
      ¬ yearOf (selectLatest c cs).reportDate < cfg.currentYear - 2 ∧
      List.lookup s cfg.priceMap = some price ∧
      ¬ price ≤ 0 ∧
      3 ≤ (selectLatest c cs).ratio / 10 / price * 100 ∧
      r = { code := s, name := n,
            latestPrice := round2 price,
            dividendPerShare := round2 ((selectLatest c cs).ratio / 10),
            distributionRatio := (selectLatest c cs).ratio,
            yieldPercent := round2 ((selectLatest c cs).ratio / 10 / price * 100),
            dividendYear := yearOf (selectLatest c cs).reportDate,
            recordDate := (selectLatest c cs).recordDate,
            exDate := (selectLatest c cs).exDate } := by
  simp only [stepStock] at h
  split at h
  · simp at h
  rename_i recs heq
  split at h
  · simp at h
  rename_i hne
  split at h
  · simp at h
  rename_i c cs hfil
  split at h
  · simp at h
  rename_i hyear
  split at h
  · simp at h
  rename_i price hlk
  split at h
  · simp at h
  rename_i hpos
  split at h
  · simp only [Option.some.injEq] at h
    rename_i hdy
    exact ⟨recs, c, cs, price, heq, hfil, hyear, hlk, hpos, hdy, h.symm⟩
  · simp at h

theorem stepStock_code {cfg : Cfg} {s n : String} {r : ScreeningResult}
    (h : (stepStock cfg s n).1 = some r) : r.code = s ∧ r.name = n := by
  obtain ⟨recs, c, cs, price, -, -, -, -, -, -, hr⟩ := stepStock_some h
  rw [hr]
  exact ⟨rfl, rfl⟩

theorem mem_screenGo_results (cfg : Cfg) (l : List (String × String)) :
    ∀ i r, r ∈ (screenGo cfg i l).results ↔
      ∃ s n, (s, n) ∈ l ∧ (stepStock cfg s n).1 = some r := by
  induction l with
  | nil => simp [screenGo]
  | cons x rest ih =>
    intro i r
    obtain ⟨s, n⟩ := x
    simp only [screenGo]
    constructor
    · intro hmem
      cases hs : (stepStock cfg s n).1 with
      | none =>
        rw [hs] at hmem
        obtain ⟨s', n', hm, hst⟩ := (ih (i + 1) r).mp hmem
        exact ⟨s', n', List.mem_cons_of_mem _ hm, hst⟩
      | some r' =>
        rw [hs] at hmem
        rcases List.mem_cons.mp hmem with rfl | hmem2
        · exact ⟨s, n, List.mem_cons_self _ _, hs⟩
        · obtain ⟨s', n', hm, hst⟩ := (ih (i + 1) r).mp hmem2
          exact ⟨s', n', List.mem_cons_of_mem _ hm, hst⟩
    · rintro ⟨s', n', hm, hst⟩
      rcases List.mem_cons.mp hm with heq | hm2
      · obtain ⟨rfl, rfl⟩ := Prod.mk.injEq .. ▸ heq
        rw [hst]
        exact List.mem_cons_self _ _
      · have : r ∈ (screenGo cfg (i + 1) rest).results := (ih (i + 1) r).mpr ⟨s', n', hm2, hst⟩
        cases hs : (stepStock cfg s n).1 with
        | none => exact this
        | some r' => exact List.mem_cons_of_mem _ this

theorem screenGo_results_start (cfg : Cfg) (l : List (String × String)) :
    ∀ i j, (screenGo cfg i l).results = (screenGo cfg j l).results := by
  induction l with
  | nil => intro i j; rfl
  | cons x rest ih =>
    intro i j
    obtain ⟨s, n⟩ := x
    simp only [screenGo]
    rw [ih (i + 1) (j + 1)]

theorem screenGo_errRecords (cfg : Cfg) (l : List (String × String)) :
    ∀ i, (screenGo cfg i l).errRecords = [] := by
  induction l with
  | nil => intro i; rfl
  | cons x rest ih =>
    intro i
    obtain ⟨s, n⟩ := x
    simp only [screenGo]
    exact ih (i + 1)

theorem mem_screenGo_pauses (cfg : Cfg) (l : List (String × String)) :
    ∀ i j, j ∈ (screenGo cfg i l).pauses ↔
      ∃ k s n, l[k]? = some (s, n) ∧ j = i + k ∧ j % 50 = 0 ∧
        (stepStock cfg s n).2 = true := by
  induction l with
  | nil => simp [screenGo]
  | cons x rest ih =>
    intro i j
    obtain ⟨s, n⟩ := x
    simp only [screenGo]
    constructor
    · intro hmem
      by_cases hc : i % 50 == 0 && (stepStock cfg s n).2
      · rw [if_pos hc] at hmem
        rcases List.mem_cons.mp hmem with rfl | hmem2
        · have hand := (Bool.and_eq_true _ _).mp hc
          have hmod : j % 50 = 0 := by simpa using hand.1
          exact ⟨0, s, n, by simp, by omega, hmod, hand.2⟩
        · obtain ⟨k, s', n', hk, hj, hmod, hst⟩ := (ih (i + 1) j).mp hmem2
          exact ⟨k + 1, s', n', by simpa using hk, by omega, hmod, hst⟩
      · rw [if_neg hc] at hmem
        obtain ⟨k, s', n', hk, hj, hmod, hst⟩ := (ih (i + 1) j).mp hmem
        exact ⟨k + 1, s', n', by simpa using hk, by omega, hmod, hst⟩
    · rintro ⟨k, s', n', hk, hj, hmod, hst⟩
      cases k with
      | zero =>
        simp only [List.getElem?_cons_zero, Option.some.injEq, Prod.mk.injEq] at hk
        obtain ⟨rfl, rfl⟩ := hk
        have hi : i % 50 = 0 := by omega
        have : (i % 50 == 0 && (stepStock cfg s n).2) = true := by
          rw [hst, hi]
          rfl
        rw [if_pos this]
        have : j = i := by omega
        rw [this]
        exact List.mem_cons_self _ _
      | succ k' =>
        have hmem : j ∈ (screenGo cfg (i + 1) rest).pauses :=
          (ih (i + 1) j).mpr ⟨k', s', n', by simpa using hk, by omega, hmod, hst⟩
        by_cases hc : i % 50 == 0 && (stepStock cfg s n).2
        · rw [if_pos hc]
          exact List.mem_cons_of_mem _ hmem
        · rw [if_neg hc]
          exact hmem

-- Concrete evaluations of the fixtures --------------------------------------

theorem wStep600000 : stepStock wCfg "600000" "甲" = (some r0, true) := by
  have h1 : wCfg.fetch "600000" = Except.ok [recA] := by with_unfolding_all rfl
  have h2 : [recA].filter isCashRecord = [recA] := by decide
  have h3 : List.lookup "600000" wCfg.priceMap = some 10 := by decide
  have h4 : wCfg.currentYear = 2025 := rfl
  simp only [stepStock, h1, List.isEmpty, h2, selectLatest, List.foldl]
  norm_num [recA, yearOf, round2, roundHalfEven, h3, h4, r0]

theorem wStep600001 : stepStock wCfg "600001" "乙" = (some r1, true) := by
  have h1 : wCfg.fetch "600001" = Except.ok [recOld, recB] := by with_unfolding_all rfl
  have h2 : [recOld, recB].filter isCashRecord = [recOld, recB] := by decide
  have h3 : List.lookup "600001" wCfg.priceMap = some 20 := by decide
  have h4 : wCfg.currentYear = 2025 := rfl
  simp only [stepStock, h1, List.isEmpty, h2, selectLatest, List.foldl]
  norm_num [recOld, recB, yearOf, round2, roundHalfEven, h3, h4, r1]

theorem wStep600002 : stepStock wCfg "600002" "乙" = (none, true) := by
  have h1 : wCfg.fetch "600002" = Except.error (.otherErr "network") := by
    with_unfolding_all rfl
  unfold stepStock
  rw [h1]

theorem wResults2 :
    screenResults wCfg [("600000", "甲"), ("600001", "乙")] = [r0, r1] := by
  simp [screenResults, screenGo, wStep600000, wStep600001]

theorem wPauses600002 : screenPauses wCfg [("600002", "乙")] = [0] := by
  simp [screenPauses, screenGo, wStep600002]

-- Claim theorems ------------------------------------------------------------

/-- C1: every emitted ScreeningResult carries the selected cash record's
ratio as distribution_ratio; its per-share dividend is round2 of ratio / 10;
its yield is round2 of (ratio / 10) / latest_price * 100; it is emitted only
when the unrounded yield is at least 3; and the emitted price, per-share
dividend and yield are the 2-decimal roundings of the computed values. -/
theorem C1_emitted_values {cfg : Cfg} {s n : String} {r : ScreeningResult}
    (h : (stepStock cfg s n).1 = some r) :
    ∃ recs c cs price,
      cfg.fetch s = Except.ok recs ∧
      recs.filter isCashRecord = c :: cs ∧
      List.lookup s cfg.priceMap = some price ∧
      r.distributionRatio = (selectLatest c cs).ratio ∧
      r.dividendPerShare = round2 ((selectLatest c cs).ratio / 10) ∧
      r.yieldPercent = round2 ((selectLatest c cs).ratio / 10 / price * 100) ∧
      r.latestPrice = round2 price ∧
      3 ≤ (selectLatest c cs).ratio / 10 / price * 100 := by
  obtain ⟨recs, c, cs, price, h1, h2, h3, h4, h5, h6, hr⟩ := stepStock_some h
  subst hr
  exact ⟨recs, c, cs, price, h1, h2, h4, rfl, rfl, rfl, rfl, h6⟩

theorem C1_emitted_values_witness :
    ∃ recs c cs price,
      wCfg.fetch "600000" = Except.ok recs ∧
      recs.filter isCashRecord = c :: cs ∧
      List.lookup "600000" wCfg.priceMap = some price ∧
      r0.distributionRatio = (selectLatest c cs).ratio ∧
      r0.dividendPerShare = round2 ((selectLatest c cs).ratio / 10) ∧
      r0.yieldPercent = round2 ((selectLatest c cs).ratio / 10 / price * 100) ∧
      r0.latestPrice = round2 price ∧
      3 ≤ (selectLatest c cs).ratio / 10 / price * 100 :=
  C1_emitted_values (show (stepStock wCfg "600000" "甲").1 = some r0 by rw [wStep600000])

/-- C3: every emitted ScreeningResult's dividend_year is the report year of
the selected (most recent) cash record, and currentYear - dividend_year ≤ 2;
a stock whose latest cash record is older is rejected. -/
theorem C3_recency_window {cfg : Cfg} {s n : String} {r : ScreeningResult}
    (h : (stepStock cfg s n).1 = some r) :
    ∃ recs c cs,
      cfg.fetch s = Except.ok recs ∧
      recs.filter isCashRecord = c :: cs ∧
      r.dividendYear = yearOf (selectLatest c cs).reportDate ∧
      cfg.currentYear - r.dividendYear ≤ 2 := by
  obtain ⟨recs, c, cs, price, h1, h2, h3, -, -, -, hr⟩ := stepStock_some h
  subst hr
  refine ⟨recs, c, cs, h1, h2, rfl, ?_⟩
  show cfg.currentYear - yearOf (selectLatest c cs).reportDate ≤ 2
  omega

theorem C3_recency_window_witness :
    ∃ recs c cs,
      wCfg.fetch "600000" = Except.ok recs ∧
      recs.filter isCashRecord = c :: cs ∧
      r0.dividendYear = yearOf (selectLatest c cs).reportDate ∧
      wCfg.currentYear - r0.dividendYear ≤ 2 :=
  C3_recency_window (show (stepStock wCfg "600000" "甲").1 = some r0 by rw [wStep600000])

/-- C4: a stock whose fetched dividend rows are all non-cash (or empty)
never appears in the results, for any current year and price map, i.e.
before any recency or yield test. -/
theorem C4_no_cash_excluded {cfg : Cfg} {idents : List (String × String)}
    {s : String} {recs : List DividendRecord}
    (hf : cfg.fetch s = Except.ok recs)
    (hnc : ∀ rec ∈ recs, isCashRecord rec = false) :
    ¬ ∃ r ∈ screenResults cfg idents, r.code = s := by
  rintro ⟨r, hmem, hcode⟩
  obtain ⟨s', n', hm, hst⟩ := (mem_screenGo_results cfg idents 0 r).mp hmem
  have hcs := (stepStock_code hst).1
  have hs : s' = s := by rw [← hcs]; exact hcode
  subst hs
  obtain ⟨recs', c, cs, price, h1, h2, -⟩ := stepStock_some hst
  rw [hf] at h1
  injection h1 with h1e
  subst h1e
  have hnil : recs.filter isCashRecord = [] :=
    List.filter_eq_nil_iff.mpr (by intro a ha; simp [hnc a ha])
  rw [hnil] at h2
  exact List.noConfusion h2

theorem C4_no_cash_excluded_witness :
    ¬ ∃ r ∈ screenResults wCfg [("600000", "甲"), ("300001", "丙")], r.code = "300001" :=
  C4_no_cash_excluded (show wCfg.fetch "300001" = Except.ok [recN] by with_unfolding_all rfl)
    (by decide)

/-- C5: a stock whose code is absent from the price map, or whose mapped
price is ≤ 0, never appears in the results, whatever its dividend history. -/
theorem C5_price_guard {cfg : Cfg} {idents : List (String × String)} {s : String}
    (hp : List.lookup s cfg.priceMap = none ∨
      ∃ p, List.lookup s cfg.priceMap = some p ∧ p ≤ 0) :
    ¬ ∃ r ∈ screenResults cfg idents, r.code = s := by
  rintro ⟨r, hmem, hcode⟩
  obtain ⟨s', n', hm, hst⟩ := (mem_screenGo_results cfg idents 0 r).mp hmem
  have hcs := (stepStock_code hst).1
  have hs : s' = s := by rw [← hcs]; exact hcode
  subst hs
  obtain ⟨recs', c, cs, price, -, -, -, hlk, hpos, -⟩ := stepStock_some hst
  rcases hp with hnone | ⟨p, hsome, hple⟩
  · rw [hnone] at hlk
    exact Option.noConfusion hlk
  · rw [hsome] at hlk
    injection hlk with hpe
    subst hpe
    exact hpos hple

theorem C5_price_guard_witness :
    ¬ ∃ r ∈ screenResults wCfg [("600006", "戊")], r.code = "600006" :=
  C5_price_guard (Or.inr ⟨0, by decide, le_refl 0⟩)

/-- C6: when the fetch for a stock raises, that stock contributes no result
and the rest of the identifier list is processed exactly as if the failing
stock were absent. -/
theorem C6_error_swallowed {cfg : Cfg} {s n : String} {e : PyErr}
    (rest : List (String × String)) (h : cfg.fetch s = Except.error e) :
    (stepStock cfg s n).1 = none ∧
    screenResults cfg ((s, n) :: rest) = screenResults cfg rest := by
  have hstep : stepStock cfg s n = (none, true) := by
    unfold stepStock
    rw [h]
  constructor
  · rw [hstep]
  · unfold screenResults
    simp only [screenGo, hstep]
    exact screenGo_results_start cfg rest 1 0

theorem C6_error_swallowed_witness :
    (stepStock wCfg "600002" "乙").1 = none ∧
    screenResults wCfg (("600002", "乙") :: [("600000", "甲")]) =
      screenResults wCfg [("600000", "甲")] :=
  C6_error_swallowed [("600000", "甲")]
    (show wCfg.fetch "600002" = Except.error (.otherErr "network") by with_unfolding_all rfl)

/-- C8: the record whose ratio, year and dates an emitted ScreeningResult
carries is a member of the stock's cash records, and its report_date is
maximal among them. -/
theorem C8_latest_by_report_date {cfg : Cfg} {s n : String} {r : ScreeningResult}
    (h : (stepStock cfg s n).1 = some r) :
    ∃ recs c cs,
      cfg.fetch s = Except.ok recs ∧
      recs.filter isCashRecord = c :: cs ∧
      selectLatest c cs ∈ c :: cs ∧
      (∀ x ∈ c :: cs, x.reportDate ≤ (selectLatest c cs).reportDate) ∧
      r.distributionRatio = (selectLatest c cs).ratio ∧
      r.dividendYear = yearOf (selectLatest c cs).reportDate ∧
      r.recordDate = (selectLatest c cs).recordDate ∧
      r.exDate = (selectLatest c cs).exDate := by
  obtain ⟨recs, c, cs, price, h1, h2, -, -, -, -, hr⟩ := stepStock_some h
  subst hr
  exact ⟨recs, c, cs, h1, h2, selectLatest_mem c cs, selectLatest_ge c cs, rfl, rfl, rfl, rfl⟩

theorem C8_latest_by_report_date_witness :
    ∃ recs c cs,
      wCfg.fetch "600001" = Except.ok recs ∧
      recs.filter isCashRecord = c :: cs ∧
      selectLatest c cs ∈ c :: cs ∧
      (∀ x ∈ c :: cs, x.reportDate ≤ (selectLatest c cs).reportDate) ∧
      r1.distributionRatio = (selectLatest c cs).ratio ∧
      r1.dividendYear = yearOf (selectLatest c cs).reportDate ∧
      r1.recordDate = (selectLatest c cs).recordDate ∧
      r1.exDate = (selectLatest c cs).exDate :=
  C8_latest_by_report_date
    (show (stepStock wCfg "600001" "乙").1 = some r1 by rw [wStep600001])

/-- C10: every code emitted by getHighDividend, which iterates over
getAllStockCodes with containBJ = false, matches the Shanghai/Shenzhen
pattern (60|68|00|30) followed by four digits; Beijing-exchange codes
cannot appear. -/
theorem C10_code_pattern {cfg : Cfg} {raw : List (String × String)}
    {r : ScreeningResult}
    (h : r ∈ screenResults cfg (getAllStockCodes false raw)) :
    matchShSz r.code = true := by
  obtain ⟨s, n, hm, hst⟩ := (mem_screenGo_results cfg _ 0 r).mp h
  have hc := (stepStock_code hst).1
  simp only [getAllStockCodes, Bool.false_eq_true, if_false] at hm
  have := List.of_mem_filter hm
  rw [hc]
  simpa using this

theorem C10_code_pattern_witness : matchShSz r0.code = true := by
  have hraw : getAllStockCodes false [("600000", "甲"), ("830001", "京")]
      = [("600000", "甲")] := by decide
  have hres : screenResults wCfg [("600000", "甲")] = [r0] := by
    simp [screenResults, screenGo, wStep600000]
  exact @C10_code_pattern wCfg [("600000", "甲"), ("830001", "京")] r0
    (by rw [hraw, hres]; exact List.mem_cons_self _ _)

/-- C2 as stated is false: two fixture stocks share yield 5%, and the
reversed order is an admissible output of the unstable descending sort, yet
its equal-yield rows are not in encounter order. -/
theorem C2_counterexample : ¬ claimC2 := by
  intro h
  have hsb : SortBehavior (screenResults wCfg [("600000", "甲"), ("600001", "乙")])
      [r1, r0] := by
    rw [wResults2]
    exact ⟨List.Perm.swap r1 r0 [], by norm_num [sortedDescBy, r0, r1]⟩
  have hties := h wCfg [("600000", "甲"), ("600001", "乙")] [r1, r0] hsb 5
  rw [wResults2] at hties
  simp [r0, r1, List.filter] at hties

/-- C2 amended: every admissible output of the final sort is descending in
yield_percent and contains exactly the collected results; the relative order
of equal-yield rows is unspecified. -/
theorem C2_sorted_descending {cfg : Cfg} {idents : List (String × String)}
    {out : List ScreeningResult}
    (h : SortBehavior (screenResults cfg idents) out) :
    sortedDescBy out ∧ ∀ r, r ∈ out ↔ r ∈ screenResults cfg idents :=
  ⟨h.2, fun _ => (h.1.mem_iff).symm⟩

theorem C2_sorted_descending_witness :
    sortedDescBy [r1, r0] ∧
    ∀ r, r ∈ [r1, r0] ↔ r ∈ screenResults wCfg [("600000", "甲"), ("600001", "乙")] :=
  C2_sorted_descending (by
    rw [wResults2]
    exact ⟨List.Perm.swap r1 r0 [], by norm_num [sortedDescBy, r0, r1]⟩)

/-- C7 as stated is false: in getHighDividend the except handler is `pass`,
so a stock whose fetch raises is recorded in no errors collection. -/
theorem C7_counterexample : ¬ claimC7 := by
  intro h
  have h2 := h.2 wCfg [("600002", "乙")] "600002" "乙" (.otherErr "network")
    (List.mem_cons_self _ _) (by with_unfolding_all rfl)
  rw [show screenErrs wCfg [("600002", "乙")] = [] from
    screenGo_errRecords wCfg [("600002", "乙")] 0] at h2
  simp at h2

/-- C7 amended: in the getStockDividendData pass, a KeyError is recorded as a
数据格式错误 (malformed data) row and any other exception as a 获取失败
(fetch failure) row in the errors collection; in the getHighDividend pass,
failures are silently swallowed and no error records exist. -/
theorem C7_errors_recorded :
    (∀ (fetch : String → Except PyErr (List DividendRecord))
        (idents : List (String × String)) (s n m : String), (s, n) ∈ idents →
      (fetch s = Except.error (.keyError m) →
        (⟨s, n, "数据格式错误: " ++ m⟩ : ErrorRecord) ∈ (collectRun fetch idents).2.2) ∧
      (fetch s = Except.error (.otherErr m) →
        (⟨s, n, "获取失败: " ++ m⟩ : ErrorRecord) ∈ (collectRun fetch idents).2.2)) ∧
    (∀ (cfg : Cfg) (idents : List (String × String)), screenErrs cfg idents = []) := by
  constructor
  · intro fetch idents
    induction idents with
    | nil =>
      intro s n m hm
      simp at hm
    | cons x rest ih =>
      intro s n m hm
      obtain ⟨s₀, n₀⟩ := x
      rcases List.mem_cons.mp hm with heq | hm2
      · obtain ⟨rfl, rfl⟩ := Prod.mk.injEq .. ▸ heq
        constructor
        · intro hf
          have hcs : collectStep fetch s = CollectOutcome.malformed m := by
            unfold collectStep
            rw [hf]
          simp only [collectRun, hcs]
          exact List.mem_cons_self _ _
        · intro hf
          have hcs : collectStep fetch s = CollectOutcome.fetchFail m := by
            unfold collectStep
            rw [hf]
          simp only [collectRun, hcs]
          exact List.mem_cons_self _ _
      · constructor
        · intro hf
          have hmem := (ih s n m hm2).1 hf
          simp only [collectRun]
          cases hcs : collectStep fetch s₀ <;> simp [hcs] <;>
            first
              | exact hmem
              | exact Or.inr hmem
        · intro hf
          have hmem := (ih s n m hm2).2 hf
          simp only [collectRun]
          cases hcs : collectStep fetch s₀ <;> simp [hcs] <;>
            first
              | exact hmem
              | exact Or.inr hmem
  · intro cfg idents
    exact screenGo_errRecords cfg idents 0

theorem C7_errors_recorded_witness :
    (⟨"600003", "丁", "数据格式错误: " ++ "派息比例"⟩ : ErrorRecord)
      ∈ (collectRun wFetch [("600003", "丁")]).2.2 ∧
    screenErrs wCfg [("600002", "乙")] = [] :=
  ⟨(C7_errors_recorded.1 wFetch [("600003", "丁")] "600003" "丁" "派息比例"
      (List.mem_cons_self _ _)).1 (by with_unfolding_all rfl),
    C7_errors_recorded.2 wCfg [("600002", "乙")]⟩

/-- C9 as stated is false: the pacing check `if i % 50 == 0` fires at the
0-based index 0, so a run over a single identifier that reaches the bottom of
the loop body pauses once, where the claim predicts no pause. -/
theorem C9_counterexample : ¬ claimC9 := by
  intro h
  have h1 := h wCfg [("600002", "乙")]
  rw [wPauses600002] at h1
  exact absurd h1 (by decide)

/-- C9 amended: a pause runs after the identifier at 0-based index i exactly
when i is a multiple of 50 (including i = 0, after the very first identifier)
and that identifier's processing reached the bottom of the loop body, i.e.
was not cut short by one of the `continue` statements. -/
theorem C9_pause_positions (cfg : Cfg) (idents : List (String × String)) (i : ℕ) :
    i ∈ screenPauses cfg idents ↔
      i % 50 = 0 ∧ ∃ s n, idents[i]? = some (s, n) ∧ (stepStock cfg s n).2 = true := by
  unfold screenPauses
  rw [mem_screenGo_pauses cfg idents 0 i]
  constructor
  · rintro ⟨k, s, n, hk, hik, hmod, hst⟩
    obtain rfl : i = k := by omega
    exact ⟨hmod, s, n, hk, hst⟩
  · rintro ⟨hmod, s, n, hk, hst⟩
    exact ⟨i, s, n, hk, by omega, hmod, hst⟩

end SelectStockDividendData
